import Mathlib

/-!
Shallow embedding of `src/macos.rs` from `get-selected-text`:
the adaptive strategy selector `get_selected_text`, its per-application
method-outcome LRU cache, and the surrounding data model.  External
collaborators (the accessibility read, the two AppleScript invocations and
the window inspector) are modelled as an environment of call outcomes; the
selector logic itself is translated line by line from the source.
-/

namespace GetSelectedText

/-- Error kinds produced by the extraction collaborators (`Box<dyn Error>`
in the source carrying `std::io::Error` with kind `NotFound`, a captured
stderr string on non-zero exit, or a UTF-8 decode failure). -/
inductive ExtractionError where
  | notFound (msg : String)
  | scriptExecution (msg : String)
  | decode
deriving DecidableEq, Repr

/-- `crate::SelectedText`, the uniform result record. -/
structure SelectedText where
  is_file_paths : Bool
  app_name : String
  text : List String
deriving DecidableEq, Repr

/-- Which extraction collaborator the selector invoked (instrumentation for
call-order properties; entries are appended exactly where the source calls
the collaborator). -/
inductive MethodCall where
  | axCall
  | clipboardCall
  | filePathsCall (forEmptyWindow : Bool)
deriving DecidableEq, Repr

/-- Modelled from the spec: the `lru` crate's `LruCache<String, u8>` behind
`GET_SELECTED_TEXT_METHOD` (the crate itself is an external dependency, not
part of this repository's sources).  Entries are kept most-recent first;
capacity is fixed at construction; `get` refreshes recency on a hit; `put`
updates-and-promotes an existing key and evicts the least-recently-used
entry when inserting a fresh key into a full cache. -/
structure LruCache where
  cap : Nat
  entries : List (String × Nat)
deriving DecidableEq, Repr

/-- Pure key-to-value view of the cache (ignores recency order). -/
def LruCache.lookup (c : LruCache) (k : String) : Option Nat :=
  (c.entries.find? (fun e => e.1 == k)).map (·.2)

/-- The key set of the cache. -/
def LruCache.keys (c : LruCache) : List String :=
  c.entries.map Prod.fst

/-- `LruCache::get`: on a hit, returns the value and moves the entry to the
front (most-recently-used position); on a miss, leaves the cache unchanged. -/
def LruCache.get (c : LruCache) (k : String) : Option Nat × LruCache :=
  match c.entries.find? (fun e => e.1 == k) with
  | some (_, v) =>
      (some v, ⟨c.cap, (k, v) :: c.entries.filter (fun e => !(e.1 == k))⟩)
  | none => (none, c)

/-- `LruCache::put`: inserts or updates `k ↦ v` at the most-recently-used
position; when inserting a fresh key into a full cache, the
least-recently-used (last) entry is evicted. -/
def LruCache.put (c : LruCache) (k : String) (v : Nat) : LruCache :=
  let rest := c.entries.filter (fun e => !(e.1 == k))
  ⟨c.cap, (k, v) :: (if rest.length < c.cap then rest else rest.take (c.cap - 1))⟩

/-- The cache installed on first use: `LruCache::new(NonZeroUsize::new(100))`
(lines 31–34 of the source), initially empty. -/
def initCache : LruCache := ⟨100, []⟩

/-- Outcomes of the external collaborators as observed at the call sites in
`get_selected_text`: the window inspector result, file-path extraction
(argument: `for_empty_window`), the accessibility read, and the
clipboard-script text read. -/
structure Env where
  windowMeta : String × String
  filePaths : Bool → Except ExtractionError String
  axText : Except ExtractionError String
  clipboardText : Except ExtractionError String

/-- Rust `text.split("\n")` on the (already trimmed) script output: splits
on newline characters, yielding `[""]` on the empty string. -/
def splitLines (s : String) : List String :=
  (s.data.splitOn '\n').map fun l => String.mk l

/-- Result of one `get_selected_text` call: the returned value, the cache
state after the call, and the trace of collaborator invocations. -/
structure RunResult where
  result : Except ExtractionError SelectedText
  cache : LruCache
  trace : List MethodCall
deriving Repr

/-- Lines 57–94 of the source: the text branch.  Looks `app_name` up in the
cache; a `PreferAccessibility` (0) hit tries the accessibility read (its
error propagates via `?`), reaffirms the entry and returns on non-empty
text, otherwise falls to the clipboard script (whose error also propagates
via `?`); any other hit goes straight to the clipboard script; a miss tries
the accessibility read, caching 0 on non-empty success, and on error falls
back to the clipboard script, caching 1 on non-empty success. -/
def text_branch (env : Env) (cache0 : LruCache) (app_name : String) : RunResult :=
  match cache0.get app_name with
  | (some t, cache1) =>
      if t = 0 then
        match env.axText with
        | .error e => ⟨.error e, cache1, [.axCall]⟩
        | .ok ax_text =>
            if ax_text ≠ "" then
              ⟨.ok ⟨false, app_name, [ax_text]⟩, cache1.put app_name 0, [.axCall]⟩
            else
              match env.clipboardText with
              | .ok txt =>
                  ⟨.ok ⟨false, app_name, [txt]⟩, cache1, [.axCall, .clipboardCall]⟩
              | .error e => ⟨.error e, cache1, [.axCall, .clipboardCall]⟩
      else
        match env.clipboardText with
        | .ok txt => ⟨.ok ⟨false, app_name, [txt]⟩, cache1, [.clipboardCall]⟩
        | .error e => ⟨.error e, cache1, [.clipboardCall]⟩
  | (none, cache1) =>
      match env.axText with
      | .ok txt =>
          ⟨.ok ⟨false, app_name, [txt]⟩,
            if txt ≠ "" then cache1.put app_name 0 else cache1, [.axCall]⟩
      | .error _ =>
          match env.clipboardText with
          | .ok txt =>
              ⟨.ok ⟨false, app_name, [txt]⟩,
                if txt ≠ "" then cache1.put app_name 1 else cache1,
                [.axCall, .clipboardCall]⟩
          | .error e => ⟨.error e, cache1, [.axCall, .clipboardCall]⟩

/-- Lines 30–95 of the source: `get_selected_text`.  Reads the window meta;
when the application is "Finder" or the sentinel "Empty Window", attempts
file-path extraction and returns immediately on any non-error result (the
string split on newline, `is_file_paths = true`), falling through to the
text branch only on an extraction error. -/
def get_selected_text (env : Env) (cache : LruCache) : RunResult :=
  let app_name := env.windowMeta.1
  let no_active_app := app_name == "Empty Window"
  if app_name == "Finder" || no_active_app then
    match env.filePaths no_active_app with
    | .ok text =>
        ⟨.ok ⟨true, app_name, splitLines text⟩, cache, [.filePathsCall no_active_app]⟩
    | .error _ =>
        let r := text_branch env cache app_name
        ⟨r.result, r.cache, .filePathsCall no_active_app :: r.trace⟩
  else
    text_branch env cache app_name

/-! ### Concrete call contexts used to exercise the theorems -/

/-- "Notes" in the foreground; accessibility succeeds with empty text;
the clipboard script would return "hello". -/
def envAxEmpty : Env :=
  ⟨("Notes", "t"), fun _ => .error .decode, .ok "", .ok "hello"⟩

/-- "Notes" in the foreground; accessibility fails; the clipboard script
returns "x". -/
def envAxErr : Env :=
  ⟨("Notes", "t"), fun _ => .error .decode,
    .error (.notFound "No selected element"), .ok "x"⟩

/-- "Notes" in the foreground; accessibility returns "hello". -/
def envAxHello : Env :=
  ⟨("Notes", "t"), fun _ => .error .decode, .ok "hello", .error .decode⟩

/-- Sentinel context; file-path extraction succeeds with the empty string;
accessibility fails with NotFound; the clipboard script returns
"fallback text". -/
def envSentinelEmptyPaths : Env :=
  ⟨("Empty Window", "Empty Window"), fun _ => .ok "",
    .error (.notFound "No selected element"), .ok "fallback text"⟩

/-- Sentinel context; file-path extraction fails; accessibility fails with
NotFound; the clipboard script returns "fallback text". -/
def envSentinelPathsErr : Env :=
  ⟨("Empty Window", "Empty Window"), fun _ => .error (.scriptExecution "boom"),
    .error (.notFound "No selected element"), .ok "fallback text"⟩

/-- Finder in the foreground with two selected files. -/
def envFinderPaths : Env :=
  ⟨("Finder", "w"), fun _ => .ok "\"/a.txt\"\n\"/b.txt\"",
    .error (.notFound "x"), .error .decode⟩

/-- A cache that prefers accessibility for "Notes". -/
def cacheNotesAx : LruCache := ⟨100, [("Notes", 0)]⟩

/-- A cache that prefers the clipboard script for "Notes". -/
def cacheNotesClipboard : LruCache := ⟨100, [("Notes", 1)]⟩

/-- A full cache: 100 distinct applications, "0" most recent, "99" least
recently used. -/
def fullCache : LruCache :=
  ⟨100, (List.range 100).map fun i => (toString i, 0)⟩

deriving instance DecidableEq for Except

/-! ### Cache lemmas -/

theorem find?_filter_ne (l : List (String × Nat)) (k k' : String) (hne : k' ≠ k) :
    (l.filter (fun e => !(e.1 == k))).find? (fun e => e.1 == k') =
      l.find? (fun e => e.1 == k') := by
  induction l with
  | nil => rfl
  | cons a t ih =>
    by_cases hk : a.1 = k
    · have h1 : (a.1 == k) = true := beq_iff_eq.mpr hk
      have h2 : (a.1 == k') = false := beq_eq_false_iff_ne.mpr (by rw [hk]; exact fun h => hne h.symm)
      rw [List.filter_cons_of_neg (by simp [h1]), ih,
        List.find?_cons_of_neg (p := fun (e : String × Nat) => e.1 == k') _ (by simp [h2])]
    · have h1 : (a.1 == k) = false := beq_eq_false_iff_ne.mpr hk
      by_cases hk' : a.1 = k'
      · have h2 : (a.1 == k') = true := beq_iff_eq.mpr hk'
        rw [List.filter_cons_of_pos (by simp [h1]),
          List.find?_cons_of_pos (p := fun (e : String × Nat) => e.1 == k') _ h2,
          List.find?_cons_of_pos (p := fun (e : String × Nat) => e.1 == k') _ h2]
      · have h2 : (a.1 == k') = false := beq_eq_false_iff_ne.mpr hk'
        rw [List.filter_cons_of_pos (by simp [h1]),
          List.find?_cons_of_neg (p := fun (e : String × Nat) => e.1 == k') _ (by simp [h2]),
          List.find?_cons_of_neg (p := fun (e : String × Nat) => e.1 == k') _ (by simp [h2]), ih]

theorem LruCache.fst_get_eq_lookup (c : LruCache) (k : String) :
    (c.get k).1 = c.lookup k := by
  unfold LruCache.get LruCache.lookup
  cases hf : c.entries.find? (fun e => e.1 == k) with
  | none => rfl
  | some a => cases a; rfl

theorem LruCache.lookup_get (c : LruCache) (k k' : String) :
    ((c.get k).2).lookup k' = c.lookup k' := by
  unfold LruCache.get
  cases hf : c.entries.find? (fun e => e.1 == k) with
  | none => rfl
  | some a =>
    obtain ⟨k0, v⟩ := a
    have hk0 : k0 = k := by simpa [beq_iff_eq] using List.find?_some hf
    by_cases hk' : k' = k
    · rw [hk']
      simp only [LruCache.lookup]
      rw [List.find?_cons_of_pos (p := fun (e : String × Nat) => e.1 == k) _ (beq_self_eq_true k), hf, hk0]
    · have hhead : ((k, v).1 == k') = false := beq_eq_false_iff_ne.mpr (fun h => hk' h.symm)
      simp only [LruCache.lookup]
      rw [List.find?_cons_of_neg _ (by simp [hhead]), find?_filter_ne _ _ _ hk']

theorem length_filter_lt_of_find? {p : (String × Nat) → Bool} {l : List (String × Nat)}
    {a : String × Nat} (h : l.find? p = some a) :
    (l.filter (fun x => !p x)).length < l.length := by
  induction l with
  | nil => simp at h
  | cons b t ih =>
    by_cases hb : p b
    · rw [List.filter_cons_of_neg (by simp [hb])]
      exact Nat.lt_succ_of_le (List.length_filter_le _ _)
    · rw [List.find?_cons_of_neg _ hb] at h
      rw [List.filter_cons_of_pos (by simp [hb])]
      simpa using Nat.succ_lt_succ (ih h)

theorem LruCache.cap_get (c : LruCache) (k : String) : ((c.get k).2).cap = c.cap := by
  unfold LruCache.get
  cases hf : c.entries.find? (fun e => e.1 == k) with
  | none => rfl
  | some a => cases a; rfl

theorem LruCache.cap_put (c : LruCache) (k : String) (v : Nat) :
    (c.put k v).cap = c.cap := rfl

theorem LruCache.get_length_le (c : LruCache) (k : String) :
    ((c.get k).2).entries.length ≤ c.entries.length := by
  unfold LruCache.get
  cases hf : c.entries.find? (fun e => e.1 == k) with
  | none => simp
  | some a =>
    obtain ⟨k0, v⟩ := a
    simpa using length_filter_lt_of_find? hf

theorem LruCache.put_length_le (c : LruCache) (k : String) (v : Nat) (h : 0 < c.cap) :
    ((c.put k v).entries).length ≤ c.cap := by
  unfold LruCache.put
  simp only
  split
  · next hlt => simpa using hlt
  · next hge =>
    have := List.length_take (c.cap - 1) (c.entries.filter (fun e => !(e.1 == k)))
    simp only [List.length_cons]
    omega

theorem LruCache.lookup_put_self (c : LruCache) (k : String) (v : Nat) :
    (c.put k v).lookup k = some v := by
  unfold LruCache.put LruCache.lookup
  simp only
  rw [List.find?_cons_of_pos (p := fun (e : String × Nat) => e.1 == k) _ (beq_self_eq_true k)]
  rfl

theorem LruCache.mem_keys_of_get_some (c : LruCache) (k : String) (v : Nat)
    (h : (c.get k).1 = some v) : k ∈ c.keys := by
  unfold LruCache.get at h
  cases hf : c.entries.find? (fun e => e.1 == k) with
  | none => rw [hf] at h; simp at h
  | some a =>
    obtain ⟨k0, w⟩ := a
    have hk0 : k0 = k := by simpa [beq_iff_eq] using List.find?_some hf
    have : (k0, w) ∈ c.entries := List.mem_of_find?_eq_some hf
    exact hk0 ▸ List.mem_map_of_mem Prod.fst this

theorem LruCache.mem_keys_get (c : LruCache) (k k' : String)
    (h : k' ∈ ((c.get k).2).keys) : k' ∈ c.keys := by
  unfold LruCache.get at h
  cases hf : c.entries.find? (fun e => e.1 == k) with
  | none => rwa [hf] at h
  | some a =>
    obtain ⟨k0, v⟩ := a
    rw [hf] at h
    simp only [LruCache.keys, List.map_cons, List.mem_cons] at h
    rcases h with h | h
    · have hk0 : k0 = k := by simpa [beq_iff_eq] using List.find?_some hf
      have : (k0, v) ∈ c.entries := List.mem_of_find?_eq_some hf
      exact h ▸ hk0 ▸ List.mem_map_of_mem Prod.fst this
    · obtain ⟨e, he, rfl⟩ := List.mem_map.mp h
      exact List.mem_map_of_mem Prod.fst (List.mem_of_mem_filter he)

theorem LruCache.mem_keys_put (c : LruCache) (k k' : String) (v : Nat)
    (h : k' ∈ (c.put k v).keys) : k' = k ∨ k' ∈ c.keys := by
  unfold LruCache.put at h
  simp only [LruCache.keys, List.map_cons, List.mem_cons] at h
  rcases h with h | h
  · exact Or.inl h
  · right
    obtain ⟨e, he, rfl⟩ := List.mem_map.mp h
    have : e ∈ c.entries.filter (fun e => !(e.1 == k)) := by
      by_cases hlt : (c.entries.filter (fun e => !(e.1 == k))).length < c.cap
      · rwa [if_pos hlt] at he
      · rw [if_neg hlt] at he; exact List.mem_of_mem_take he
    exact List.mem_map_of_mem Prod.fst (List.mem_of_mem_filter this)

theorem LruCache.get_of_fst_none (c : LruCache) (k : String)
    (h : (c.get k).1 = none) : c.get k = (none, c) := by
  unfold LruCache.get at h ⊢
  cases hf : c.entries.find? (fun e => e.1 == k) with
  | none => rfl
  | some a => obtain ⟨k0, v⟩ := a; rw [hf] at h; simp at h

theorem LruCache.get_eta (c : LruCache) (k : String) (v : Nat)
    (h : (c.get k).1 = some v) : c.get k = (some v, (c.get k).2) := by
  rw [← h]

/-! ### Structural facts about the text branch -/

theorem text_branch_miss (env : Env) (c : LruCache) (app : String)
    (h : (c.get app).1 = none) :
    text_branch env c app =
      match env.axText with
      | .ok txt =>
          ⟨.ok ⟨false, app, [txt]⟩, if txt ≠ "" then c.put app 0 else c, [.axCall]⟩
      | .error _ =>
          match env.clipboardText with
          | .ok txt =>
              ⟨.ok ⟨false, app, [txt]⟩, if txt ≠ "" then c.put app 1 else c,
                [.axCall, .clipboardCall]⟩
          | .error e => ⟨.error e, c, [.axCall, .clipboardCall]⟩ := by
  have hget := LruCache.get_of_fst_none c app h
  unfold text_branch
  rw [hget]

theorem text_branch_hit0 (env : Env) (c : LruCache) (app : String)
    (h : (c.get app).1 = some 0) :
    text_branch env c app =
      match env.axText with
      | .error e => ⟨.error e, (c.get app).2, [.axCall]⟩
      | .ok ax_text =>
          if ax_text ≠ "" then
            ⟨.ok ⟨false, app, [ax_text]⟩, ((c.get app).2).put app 0, [.axCall]⟩
          else
            match env.clipboardText with
            | .ok txt =>
                ⟨.ok ⟨false, app, [txt]⟩, (c.get app).2, [.axCall, .clipboardCall]⟩
            | .error e => ⟨.error e, (c.get app).2, [.axCall, .clipboardCall]⟩ := by
  unfold text_branch
  rw [LruCache.get_eta c app 0 h]
  rcases env.axText with e | ax <;> rfl

theorem text_branch_hit_ne0 (env : Env) (c : LruCache) (app : String) (v : Nat)
    (h : (c.get app).1 = some v) (hv : v ≠ 0) :
    text_branch env c app =
      match env.clipboardText with
      | .ok txt => ⟨.ok ⟨false, app, [txt]⟩, (c.get app).2, [.clipboardCall]⟩
      | .error e => ⟨.error e, (c.get app).2, [.clipboardCall]⟩ := by
  unfold text_branch
  rw [LruCache.get_eta c app v h]
  rcases env.clipboardText with e | txt <;> simp [hv]

theorem text_branch_cache_cases (env : Env) (c : LruCache) (app : String) :
    (text_branch env c app).cache = (c.get app).2 ∨
      ∃ v, (text_branch env c app).cache = ((c.get app).2).put app v := by
  rcases hfst : (c.get app).1 with _ | v
  · have hget := LruCache.get_of_fst_none c app hfst
    rw [text_branch_miss env c app hfst, hget]
    rcases env.axText with e | txt
    · rcases env.clipboardText with e2 | txt2
      · left; rfl
      · by_cases ht : txt2 = ""
        · left; simp [ht]
        · right; exact ⟨1, by simp [ht]⟩
    · by_cases ht : txt = ""
      · left; simp [ht]
      · right; exact ⟨0, by simp [ht]⟩
  · by_cases hv : v = 0
    · subst hv
      rw [text_branch_hit0 env c app hfst]
      rcases env.axText with e | ax
      · left; rfl
      · by_cases hne : ax = ""
        · rcases env.clipboardText with e2 | txt2
          · left; simp [hne]
          · left; simp [hne]
        · right; exact ⟨0, by simp [hne]⟩
    · rw [text_branch_hit_ne0 env c app v hfst hv]
      rcases env.clipboardText with e2 | txt2 <;> left <;> rfl

theorem text_branch_error_cache (env : Env) (c : LruCache) (app : String)
    (e : ExtractionError) (herr : (text_branch env c app).result = .error e) :
    (text_branch env c app).cache = (c.get app).2 := by
  rcases hfst : (c.get app).1 with _ | v
  · have hget := LruCache.get_of_fst_none c app hfst
    rw [text_branch_miss env c app hfst] at herr ⊢
    rw [hget]
    revert herr
    rcases env.axText with e1 | txt
    · rcases env.clipboardText with e2 | txt2
      · intro _; rfl
      · intro herr; simp at herr
    · intro herr; simp at herr
  · by_cases hv : v = 0
    · subst hv
      rw [text_branch_hit0 env c app hfst] at herr ⊢
      revert herr
      rcases env.axText with e1 | ax
      · intro _; rfl
      · by_cases hne : ax = ""
        · subst hne
          rcases env.clipboardText with e2 | txt2
          · intro _; rfl
          · intro herr; simp at herr
        · intro herr; simp [hne] at herr
    · rw [text_branch_hit_ne0 env c app v hfst hv] at herr ⊢
      revert herr
      rcases env.clipboardText with e2 | txt2
      · intro _; rfl
      · intro herr; simp at herr

/-! ### Claims -/

/-- **C1** (amended).  For every call that reaches the text branch with an
`app_name` that has no cache entry: if the accessibility method returns an
*error*, the selector falls back to the clipboard-script method — if that
returns non-empty text, `PreferClipboardScript` (1) is recorded for the
`app_name` and the text returned; if it returns empty text or an error,
that outcome is returned as-is with no cache write.  If the accessibility
method instead returns *empty text* (a non-error empty result), the empty
text is returned as-is with no cache write and the clipboard-script method
is not invoked (contrary to the original claim's "empty text → fall
back"). -/
theorem C1_unknown_app_fallback (env : Env) (cache0 : LruCache) (app : String)
    (hmiss : (cache0.get app).1 = none) :
    (∀ e, env.axText = .error e →
      (∀ t, env.clipboardText = .ok t → t ≠ "" →
        text_branch env cache0 app =
          ⟨.ok ⟨false, app, [t]⟩, cache0.put app 1, [.axCall, .clipboardCall]⟩) ∧
      (env.clipboardText = .ok "" →
        text_branch env cache0 app =
          ⟨.ok ⟨false, app, [""]⟩, cache0, [.axCall, .clipboardCall]⟩) ∧
      (∀ e2, env.clipboardText = .error e2 →
        text_branch env cache0 app =
          ⟨.error e2, cache0, [.axCall, .clipboardCall]⟩)) ∧
    (env.axText = .ok "" →
      text_branch env cache0 app =
        ⟨.ok ⟨false, app, [""]⟩, cache0, [.axCall]⟩) := by
  have hm := text_branch_miss env cache0 app hmiss
  constructor
  · intro e he
    refine ⟨?_, ?_, ?_⟩
    · intro t ht htne
      rw [hm, he, ht]
      simp [htne]
    · intro ht
      rw [hm, he, ht]
      simp
    · intro e2 ht
      rw [hm, he, ht]
  · intro hax
    rw [hm, hax]
    simp

/-- Witness for C1 at a concrete input: unseen "Notes", accessibility
errors, clipboard returns "x". -/
theorem C1_unknown_app_fallback_witness :
    text_branch envAxErr initCache "Notes" =
      ⟨.ok ⟨false, "Notes", ["x"]⟩, initCache.put "Notes" 1,
        [.axCall, .clipboardCall]⟩ :=
  ((C1_unknown_app_fallback envAxErr initCache "Notes" rfl).1
    (.notFound "No selected element") rfl).1 "x" rfl (by decide)

/-- **C1** counterexample: with no cache entry for "Notes", accessibility
returning empty text does *not* fall back to the clipboard script (which
would return "hello"); the selector returns the empty text with no cache
write and never invokes the clipboard script. -/
theorem C1_counterexample :
    (text_branch envAxEmpty initCache "Notes").result = .ok ⟨false, "Notes", [""]⟩ ∧
    (text_branch envAxEmpty initCache "Notes").result ≠ .ok ⟨false, "Notes", ["hello"]⟩ ∧
    ((text_branch envAxEmpty initCache "Notes").cache).lookup "Notes" = none ∧
    (text_branch envAxEmpty initCache "Notes").trace = [.axCall] := by
  refine ⟨rfl, by decide, rfl, rfl⟩

/-- **C2** (amended).  When the cache maps the current `app_name` to
`PreferAccessibility` (0): if the accessibility method returns *empty
text*, the selector falls back to the clipboard-script method and returns
whatever it produces, and the cache mapping for `app_name` is not updated
(it still maps to 0 — only recency changes).  If the accessibility method
returns an *error*, that error is propagated to the caller (via `?`)
without invoking the clipboard-script method (contrary to the original
claim's "or an error → fall back"); the cache mapping is likewise
unchanged. -/
theorem C2_prefer_ax_miss_no_downgrade (env : Env) (cache0 : LruCache) (app : String)
    (hhit : (cache0.get app).1 = some 0) :
    (env.axText = .ok "" →
      (text_branch env cache0 app).result
          = env.clipboardText.map (fun t => ⟨false, app, [t]⟩) ∧
      (text_branch env cache0 app).cache = (cache0.get app).2 ∧
      (text_branch env cache0 app).trace = [.axCall, .clipboardCall]) ∧
    (∀ e, env.axText = .error e →
      text_branch env cache0 app = ⟨.error e, (cache0.get app).2, [.axCall]⟩) ∧
    ((cache0.get app).2.lookup app = some 0) := by
  have h0 := text_branch_hit0 env cache0 app hhit
  refine ⟨fun hax => ?_, fun e he => ?_, ?_⟩
  · refine ⟨?_, ?_, ?_⟩ <;> rw [h0, hax] <;>
      rcases env.clipboardText with e2 | t <;> simp [Except.map]
  · rw [h0, he]
  · rw [LruCache.lookup_get, ← LruCache.fst_get_eq_lookup]
    exact hhit

/-- Witness for C2 at a concrete input: "Notes" cached as 0, accessibility
returns empty text, clipboard returns "hello". -/
theorem C2_prefer_ax_miss_no_downgrade_witness :
    ((text_branch envAxEmpty cacheNotesAx "Notes").result
        = envAxEmpty.clipboardText.map (fun t => ⟨false, "Notes", [t]⟩) ∧
      (text_branch envAxEmpty cacheNotesAx "Notes").cache
        = (cacheNotesAx.get "Notes").2 ∧
      (text_branch envAxEmpty cacheNotesAx "Notes").trace
        = [.axCall, .clipboardCall]) ∧
    ((cacheNotesAx.get "Notes").2.lookup "Notes" = some 0) :=
  ⟨(C2_prefer_ax_miss_no_downgrade envAxEmpty cacheNotesAx "Notes" rfl).1 rfl,
   (C2_prefer_ax_miss_no_downgrade envAxEmpty cacheNotesAx "Notes" rfl).2.2⟩

/-- **C2** counterexample: with "Notes" cached as `PreferAccessibility` and
the accessibility method failing (NotFound), the call returns that error —
it does not fall back to the clipboard script (which would return "x"). -/
theorem C2_counterexample :
    (text_branch envAxErr cacheNotesAx "Notes").result
        = .error (.notFound "No selected element") ∧
    (text_branch envAxErr cacheNotesAx "Notes").result ≠ .ok ⟨false, "Notes", ["x"]⟩ ∧
    (text_branch envAxErr cacheNotesAx "Notes").trace = [.axCall] := by
  refine ⟨rfl, by decide, rfl⟩

/-- **C3** (amended).  In the sentinel ("no active application") context,
when file-path extraction succeeds with the empty string (nothing
selected), the selector returns *immediately* with
`{is_file_paths: true, app_name: "Empty Window", text: [""]}` — it does
not fall through to the text branch (contrary to the original claim).  The
fall-through happens only when file-path extraction *fails*; in that case,
with no cache entry, accessibility failing with NotFound and the
clipboard-script method returning non-empty text `t`, the final result is
`{is_file_paths: false, app_name: "Empty Window", text: [t]}`. -/
theorem C3_sentinel_empty_paths (env : Env) (cache : LruCache) (w : String)
    (hw : env.windowMeta = ("Empty Window", w)) :
    (env.filePaths true = .ok "" →
      get_selected_text env cache =
        ⟨.ok ⟨true, "Empty Window", [""]⟩, cache, [.filePathsCall true]⟩) ∧
    (∀ e m t, env.filePaths true = .error e →
      env.axText = .error (.notFound m) →
      env.clipboardText = .ok t → t ≠ "" →
      (cache.get "Empty Window").1 = none →
      (get_selected_text env cache).result = .ok ⟨false, "Empty Window", [t]⟩) := by
  have h1 : env.windowMeta.1 = "Empty Window" := by rw [hw]
  have hcond : (env.windowMeta.1 == "Finder" || env.windowMeta.1 == "Empty Window") = true := by
    rw [h1]; rfl
  have harg : (env.windowMeta.1 == "Empty Window") = true := by rw [h1]; rfl
  constructor
  · intro hfp
    have hsl : splitLines "" = [""] := rfl
    simp [get_selected_text, hcond, harg, hfp, hsl, h1]
  · intro e m t hfp hax hcb htne hmiss
    have hm := text_branch_miss env cache "Empty Window" hmiss
    simp only [get_selected_text, hcond, harg, h1]
    rw [hm, hax, hcb]
    simp [hfp, htne]

/-- Witness for C3 at concrete inputs: the immediate empty-path return, and
the error-fall-through scenario ending in "fallback text". -/
theorem C3_sentinel_empty_paths_witness :
    (get_selected_text envSentinelEmptyPaths initCache =
      ⟨.ok ⟨true, "Empty Window", [""]⟩, initCache, [.filePathsCall true]⟩) ∧
    ((get_selected_text envSentinelPathsErr initCache).result
        = .ok ⟨false, "Empty Window", ["fallback text"]⟩) :=
  ⟨(C3_sentinel_empty_paths envSentinelEmptyPaths initCache "Empty Window" rfl).1 rfl,
   (C3_sentinel_empty_paths envSentinelPathsErr initCache "Empty Window" rfl).2
     (.scriptExecution "boom") "No selected element" "fallback text"
     rfl rfl rfl (by decide) rfl⟩

/-- **C3** counterexample: in the sentinel context with file-path
extraction succeeding with the empty string, accessibility NotFound and
clipboard "fallback text", the code returns
`{is_file_paths: true, app_name: "Empty Window", text: [""]}` immediately —
not the claimed `{is_file_paths: false, …, text: ["fallback text"]}`. -/
theorem C3_counterexample :
    (get_selected_text envSentinelEmptyPaths initCache).result
        = .ok ⟨true, "Empty Window", [""]⟩ ∧
    (get_selected_text envSentinelEmptyPaths initCache).result
        ≠ .ok ⟨false, "Empty Window", ["fallback text"]⟩ := by
  refine ⟨rfl, by decide⟩

/-- **C4** (confirmed).  For an application with no cache entry, a call
reaching the text branch invokes the accessibility method first; and when
accessibility succeeds with non-empty text `t`, the call records
`PreferAccessibility` (0) for the `app_name` and returns
`{is_file_paths: false, app_name, text: [t]}` with the clipboard-script
method never invoked (trace is exactly `[axCall]`). -/
theorem C4_first_call_tries_ax_first (env : Env) (cache0 : LruCache) (app : String)
    (hmiss : (cache0.get app).1 = none) :
    (text_branch env cache0 app).trace.head? = some .axCall ∧
    (∀ t, env.axText = .ok t → t ≠ "" →
      text_branch env cache0 app =
        ⟨.ok ⟨false, app, [t]⟩, cache0.put app 0, [.axCall]⟩ ∧
      (cache0.put app 0).lookup app = some 0) := by
  have hm := text_branch_miss env cache0 app hmiss
  constructor
  · rw [hm]
    rcases env.axText with e | txt
    · rcases env.clipboardText with e2 | t2 <;> rfl
    · rfl
  · intro t hax htne
    rw [hm, hax]
    exact ⟨by simp [htne], LruCache.lookup_put_self _ _ _⟩

/-- Witness for C4 at a concrete input: unseen "Notes", accessibility
returns "hello". -/
theorem C4_first_call_tries_ax_first_witness :
    (text_branch envAxHello initCache "Notes").trace.head? = some .axCall ∧
    text_branch envAxHello initCache "Notes" =
      ⟨.ok ⟨false, "Notes", ["hello"]⟩, initCache.put "Notes" 0, [.axCall]⟩ :=
  ⟨(C4_first_call_tries_ax_first envAxHello initCache "Notes" rfl).1,
   ((C4_first_call_tries_ax_first envAxHello initCache "Notes" rfl).2
     "hello" rfl (by decide)).1⟩

/-- **C5** (confirmed).  When the cache maps the current `app_name` to
`PreferClipboardScript` (1), the selector invokes only the
clipboard-script method (trace is exactly `[clipboardCall]`, accessibility
never runs) and returns its outcome as-is — success or error, empty or not
— while the cache mapping is unchanged (only recency refreshed). -/
theorem C5_prefer_clipboard_skips_ax (env : Env) (cache0 : LruCache) (app : String)
    (hhit : (cache0.get app).1 = some 1) :
    (text_branch env cache0 app).trace = [.clipboardCall] ∧
    (text_branch env cache0 app).result
        = env.clipboardText.map (fun t => ⟨false, app, [t]⟩) ∧
    (text_branch env cache0 app).cache = (cache0.get app).2 := by
  have h1 := text_branch_hit_ne0 env cache0 app 1 hhit (by decide)
  refine ⟨?_, ?_, ?_⟩ <;> rw [h1] <;>
    rcases env.clipboardText with e | t <;> simp [Except.map]

/-- Witness for C5 at a concrete input: "Notes" cached as 1, clipboard
returns "x". -/
theorem C5_prefer_clipboard_skips_ax_witness :
    (text_branch envAxErr cacheNotesClipboard "Notes").trace = [.clipboardCall] ∧
    (text_branch envAxErr cacheNotesClipboard "Notes").result
        = envAxErr.clipboardText.map (fun t => ⟨false, "Notes", [t]⟩) ∧
    (text_branch envAxErr cacheNotesClipboard "Notes").cache
        = (cacheNotesClipboard.get "Notes").2 :=
  C5_prefer_clipboard_skips_ax envAxErr cacheNotesClipboard "Notes" rfl

/-- **C6** (confirmed).  When `app_name` is "Finder" or the sentinel
"Empty Window" and file-path extraction fails with an error, the call
falls through to the text branch: its outcome (result and cache) is
exactly the text branch's outcome, so the file-path error is never
surfaced to the caller. -/
theorem C6_file_path_error_recovered (env : Env) (cache : LruCache)
    (e : ExtractionError)
    (happ : env.windowMeta.1 = "Finder" ∨ env.windowMeta.1 = "Empty Window")
    (hfp : env.filePaths (env.windowMeta.1 == "Empty Window") = .error e) :
    get_selected_text env cache =
      ⟨(text_branch env cache env.windowMeta.1).result,
       (text_branch env cache env.windowMeta.1).cache,
       .filePathsCall (env.windowMeta.1 == "Empty Window")
         :: (text_branch env cache env.windowMeta.1).trace⟩ := by
  rcases happ with h | h
  · have hcond : (env.windowMeta.1 == "Finder" || env.windowMeta.1 == "Empty Window") = true := by
      rw [h]; rfl
    have harg : (env.windowMeta.1 == "Empty Window") = false := by rw [h]; rfl
    rw [harg] at hfp ⊢
    simp [get_selected_text, hcond, harg, hfp, h]
  · have hcond : (env.windowMeta.1 == "Finder" || env.windowMeta.1 == "Empty Window") = true := by
      rw [h]; rfl
    have harg : (env.windowMeta.1 == "Empty Window") = true := by rw [h]; rfl
    rw [harg] at hfp ⊢
    simp [get_selected_text, hcond, harg, hfp, h]

/-- Witness for C6 at a concrete input: sentinel context with a failing
file-path script. -/
theorem C6_file_path_error_recovered_witness :
    get_selected_text envSentinelPathsErr initCache =
      ⟨(text_branch envSentinelPathsErr initCache "Empty Window").result,
       (text_branch envSentinelPathsErr initCache "Empty Window").cache,
       .filePathsCall true
         :: (text_branch envSentinelPathsErr initCache "Empty Window").trace⟩ :=
  C6_file_path_error_recovered envSentinelPathsErr initCache
    (.scriptExecution "boom") (Or.inr rfl) rfl

/-- **C7** (confirmed).  When `app_name` is "Finder" and file-path
extraction returns the newline-join of a non-empty list of
newline-free path strings, the result is `is_file_paths = true`, the same
`app_name`, and `text` is exactly that list of paths (so `text.length`
equals the number of paths, in order), with no cache change. -/
theorem C7_finder_paths_split (env : Env) (cache : LruCache) (w s : String)
    (paths : List String)
    (hw : env.windowMeta = ("Finder", w))
    (hs : env.filePaths false = .ok s)
    (hdata : s.data = List.intercalate ['\n'] (paths.map String.data))
    (hnl : ∀ p ∈ paths, '\n' ∉ p.data)
    (hne : paths ≠ []) :
    get_selected_text env cache =
      ⟨.ok ⟨true, "Finder", paths⟩, cache, [.filePathsCall false]⟩ := by
  have h1 : env.windowMeta.1 = "Finder" := by rw [hw]
  have hcond : (env.windowMeta.1 == "Finder" || env.windowMeta.1 == "Empty Window") = true := by
    rw [h1]; rfl
  have harg : (env.windowMeta.1 == "Empty Window") = false := by rw [h1]; rfl
  have hsplit : splitLines s = paths := by
    unfold splitLines
    rw [hdata, List.splitOn_intercalate (paths.map String.data) '\n'
      (fun l hl => by obtain ⟨p, hp, rfl⟩ := List.mem_map.mp hl; exact hnl p hp)
      (by simpa using hne)]
    rw [List.map_map]
    have hid : ((fun l => String.mk l) ∘ String.data) = id := funext fun p => rfl
    rw [hid, List.map_id]
  simp [get_selected_text, hcond, harg, hs, hsplit, h1]

/-- Witness for C7 at a concrete input: Finder with two quoted paths. -/
theorem C7_finder_paths_split_witness :
    get_selected_text envFinderPaths initCache =
      ⟨.ok ⟨true, "Finder", ["\"/a.txt\"", "\"/b.txt\""]⟩, initCache,
        [.filePathsCall false]⟩ :=
  C7_finder_paths_split envFinderPaths initCache "w" "\"/a.txt\"\n\"/b.txt\""
    ["\"/a.txt\"", "\"/b.txt\""] rfl rfl (by decide) (by decide) (by decide)

theorem get_selected_text_cache_cases (env : Env) (c : LruCache) :
    (get_selected_text env c).cache = c ∨
      (get_selected_text env c).cache = (c.get env.windowMeta.1).2 ∨
      ∃ v, (get_selected_text env c).cache
            = ((c.get env.windowMeta.1).2).put env.windowMeta.1 v := by
  have htb := text_branch_cache_cases env c env.windowMeta.1
  simp only [get_selected_text]
  split
  · split
    · left; rfl
    · rcases htb with h | ⟨v, h⟩
      · right; left; exact h
      · right; right; exact ⟨v, h⟩
  · rcases htb with h | ⟨v, h⟩
    · right; left; exact h
    · right; right; exact ⟨v, h⟩

/-- **C8** (confirmed).  The Method Outcome Cache is bounded by its
capacity of 100: any `get_selected_text` call maps a ≤100-entry cache to a
≤100-entry cache; inserting a fresh key into a full 100-entry cache evicts
exactly the least-recently-used (last) entry; and both `get` (on a hit)
and `put` move the touched key to the most-recently-used (front)
position. -/
theorem C8_cache_capacity_lru :
    (∀ env c, c.cap = 100 → c.entries.length ≤ 100 →
      (get_selected_text env c).cache.cap = 100 ∧
      (get_selected_text env c).cache.entries.length ≤ 100) ∧
    (∀ c : LruCache, ∀ k v, c.cap = 100 → c.entries.length = 100 → k ∉ c.keys →
      (c.put k v).entries = (k, v) :: c.entries.dropLast) ∧
    (∀ c : LruCache, ∀ k v, (c.get k).1 = some v →
      (c.get k).2.entries.head? = some (k, v)) ∧
    (∀ c : LruCache, ∀ k v, (c.put k v).entries.head? = some (k, v)) := by
  refine ⟨fun env c hcap hlen => ?_, fun c k v hcap hlen hk => ?_,
    fun c k v h => ?_, fun c k v => rfl⟩
  · rcases get_selected_text_cache_cases env c with h | h | ⟨v, h⟩
    · rw [h]; exact ⟨hcap, hlen⟩
    · rw [h]
      exact ⟨by rw [LruCache.cap_get, hcap],
        le_trans (LruCache.get_length_le c _) hlen⟩
    · rw [h]
      constructor
      · rw [LruCache.cap_put, LruCache.cap_get, hcap]
      · have hp := LruCache.put_length_le ((c.get env.windowMeta.1).2)
          env.windowMeta.1 v (by rw [LruCache.cap_get, hcap]; norm_num)
        rwa [LruCache.cap_get, hcap] at hp
  · have hfilter : c.entries.filter (fun e => !(e.1 == k)) = c.entries := by
      rw [List.filter_eq_self]
      intro a ha
      have hne : a.1 ≠ k := fun h => hk (h ▸ List.mem_map_of_mem Prod.fst ha)
      simp [hne]
    unfold LruCache.put
    simp only
    rw [hfilter, List.dropLast_eq_take, hlen, hcap, if_neg (by omega)]
  · unfold LruCache.get at h ⊢
    cases hf : c.entries.find? (fun e => e.1 == k) with
    | none => rw [hf] at h; simp at h
    | some a =>
      obtain ⟨k0, w⟩ := a
      rw [hf] at h
      obtain rfl : w = v := by simpa using h
      rfl

/-- Witness for C8 at concrete inputs: a full 100-entry cache evicting its
LRU entry on a fresh insert; a bounded call; and recency refresh for `get`
and `put`. -/
theorem C8_cache_capacity_lru_witness :
    ((fullCache.put "x" 3).entries = ("x", 3) :: fullCache.entries.dropLast) ∧
    (get_selected_text envAxHello initCache).cache.entries.length ≤ 100 ∧
    ((cacheNotesAx.get "Notes").2.entries.head? = some ("Notes", 0)) ∧
    ((initCache.put "A" 1).entries.head? = some ("A", 1)) :=
  ⟨C8_cache_capacity_lru.2.1 fullCache "x" 3 rfl (by decide) (by decide),
   (C8_cache_capacity_lru.1 envAxHello initCache rfl (by decide)).2,
   C8_cache_capacity_lru.2.2.1 cacheNotesAx "Notes" 0 rfl,
   C8_cache_capacity_lru.2.2.2 initCache "A" 1⟩

theorem text_branch_keys (env : Env) (c : LruCache) (app : String) (k : String)
    (hk : k ∈ (text_branch env c app).cache.keys) :
    k ∈ c.keys ∨
      (k = app ∧ ∃ t, t ≠ "" ∧ (env.axText = .ok t ∨ env.clipboardText = .ok t)) := by
  rcases hfst : (c.get app).1 with _ | v
  · have hget := LruCache.get_of_fst_none c app hfst
    rw [text_branch_miss env c app hfst] at hk
    revert hk
    rcases hax : env.axText with e | txt
    · rcases hcb : env.clipboardText with e2 | txt2
      · intro hk; exact Or.inl hk
      · by_cases ht : txt2 = ""
        · subst ht; intro hk; simp at hk; exact Or.inl hk
        · intro hk
          simp only [ne_eq, ht, not_false_eq_true, if_true] at hk
          rcases LruCache.mem_keys_put c app k 1 hk with rfl | hmem
          · exact Or.inr ⟨rfl, txt2, ht, Or.inr rfl⟩
          · exact Or.inl hmem
    · by_cases ht : txt = ""
      · subst ht; intro hk; simp at hk; exact Or.inl hk
      · intro hk
        simp only [ne_eq, ht, not_false_eq_true, if_true] at hk
        rcases LruCache.mem_keys_put c app k 0 hk with rfl | hmem
        · exact Or.inr ⟨rfl, txt, ht, Or.inl rfl⟩
        · exact Or.inl hmem
  · have happ : app ∈ c.keys := LruCache.mem_keys_of_get_some c app v hfst
    by_cases hv : v = 0
    · subst hv
      rw [text_branch_hit0 env c app hfst] at hk
      revert hk
      rcases hax : env.axText with e | ax
      · intro hk; exact Or.inl (LruCache.mem_keys_get c app k hk)
      · by_cases hne : ax = ""
        · subst hne
          rcases hcb : env.clipboardText with e2 | txt2 <;>
            · intro hk
              simp only [ne_eq, not_true_eq_false, if_false] at hk
              exact Or.inl (LruCache.mem_keys_get c app k hk)
        · intro hk
          simp only [ne_eq, hne, not_false_eq_true, if_true] at hk
          rcases LruCache.mem_keys_put _ app k 0 hk with rfl | hmem
          · exact Or.inl happ
          · exact Or.inl (LruCache.mem_keys_get c app k hmem)
    · rw [text_branch_hit_ne0 env c app v hfst hv] at hk
      revert hk
      rcases hcb : env.clipboardText with e2 | txt2 <;>
        · intro hk
          exact Or.inl (LruCache.mem_keys_get c app k hk)

/-- **C9** (confirmed).  Key invariant preserved by every
`get_selected_text` call: any key present in the cache afterwards was
either already present before the call, or is the current application's
name and some extraction method (accessibility or clipboard script)
succeeded with non-empty text during the call — no entry is ever written
on an empty or failed extraction. -/
theorem C9_key_only_after_success (env : Env) (cache : LruCache) (k : String)
    (hk : k ∈ (get_selected_text env cache).cache.keys) :
    k ∈ cache.keys ∨
      (k = env.windowMeta.1 ∧ ∃ t, t ≠ "" ∧
        (env.axText = .ok t ∨ env.clipboardText = .ok t)) := by
  have htb := text_branch_keys env cache env.windowMeta.1 k
  revert hk
  simp only [get_selected_text]
  split
  · split
    · intro hk; exact Or.inl hk
    · intro hk; exact htb hk
  · intro hk; exact htb hk

/-- Witness for C9 at a concrete input: after a first call for unseen
"Notes" whose accessibility read returns "hello", the key "Notes" is in
the cache and the right-hand disjunct holds. -/
theorem C9_key_only_after_success_witness :
    "Notes" ∈ initCache.keys ∨
      ("Notes" = envAxHello.windowMeta.1 ∧ ∃ t, t ≠ "" ∧
        (envAxHello.axText = .ok t ∨ envAxHello.clipboardText = .ok t)) :=
  C9_key_only_after_success envAxHello initCache "Notes" (by decide)

/-- **C10** (confirmed).  Atomicity on error: whenever `get_selected_text`
returns an error, the cache's key-to-value mapping is exactly what it was
at the start of the call — no entry added, removed or changed in value
(only LRU recency order may differ, via the `get` refresh). -/
theorem C10_error_preserves_mapping (env : Env) (cache : LruCache)
    (e : ExtractionError)
    (herr : (get_selected_text env cache).result = .error e) (k : String) :
    (get_selected_text env cache).cache.lookup k = cache.lookup k := by
  revert herr
  simp only [get_selected_text]
  split
  · split
    · intro herr; simp at herr
    · intro herr
      have h2 := text_branch_error_cache env cache env.windowMeta.1 e herr
      show (text_branch env cache env.windowMeta.1).cache.lookup k = cache.lookup k
      rw [h2, LruCache.lookup_get]
  · intro herr
    have h2 := text_branch_error_cache env cache env.windowMeta.1 e herr
    rw [h2, LruCache.lookup_get]

/-- Witness for C10 at a concrete input: "Notes" cached as 0, the
accessibility error propagates, and the mapping for every probed key is
unchanged (shown at "Notes" itself). -/
theorem C10_error_preserves_mapping_witness :
    (get_selected_text envAxErr cacheNotesAx).cache.lookup "Notes"
      = cacheNotesAx.lookup "Notes" :=
  C10_error_preserves_mapping envAxErr cacheNotesAx
    (.notFound "No selected element") rfl "Notes"

end GetSelectedText
